import Mathlib

/-!
Verification of the primality core of the pandas-primes extension.

The source (src/src/lib.rs) exposes three functions of interest:
- `is_prime_scalar : u64 -> bool` — 6k±1 trial division;
- `is_prime`       — element-wise mask over a nullable uint64 column,
  producing a `BooleanArray` with no validity bitmap (no nulls);
- `are_all_primes` — short-circuiting aggregate over the same column.

Columns are embedded as `List (Option Nat)` (a present slot is `some v`,
an absent slot is `none`), with all arithmetic on `Nat`.  No value in the
scalar test ever exceeds the u64 range: `n < 2^64` and the loop index `i`
stays below `ceil_sqrt n + 6 ≤ 2^32 + 6`, so `i + 2` never wraps and `Nat`
arithmetic coincides with the Rust u64 arithmetic.
-/

namespace PandasPrimes

/-- Exact ceiling of the square root: the least `r` with `n ≤ r * r`.
The source computes this bound as `(n as f64).powf(0.5).ceil() as u64`;
we embed the exact mathematical value `⌈√n⌉` that this expression is
intended to produce (the floating-point rounding question is treated
separately and is not embeddable).  The search is bounded by `n`, which
always satisfies `n ≤ n * n` (and `0 ≤ 0`). -/
def ceil_sqrt (n : Nat) : Nat :=
  match (List.range (n + 1)).find? (fun r => decide (n ≤ r * r)) with
  | some r => r
  | none => n

/-- Embedding of the Rust loop `for i in (5..limit).step_by(6) { if n % i == 0
|| n % (i + 2) == 0 { return false } }; return true`, as fuel-bounded
recursion.  `trial_division_loop n limit i fuel` runs the loop body starting
at index `i`; any fuel with `limit ≤ i + 6 * fuel` is enough for the result
to agree with the unbounded loop (the callers pass `fuel = limit`). -/
def trial_division_loop (n limit : Nat) : Nat → Nat → Bool
  | _, 0 => true
  | i, fuel + 1 =>
    if i < limit then
      if n % i = 0 ∨ n % (i + 2) = 0 then false
      else trial_division_loop n limit (i + 6) fuel
    else true

/-- Embedding of `is_prime_scalar` (src/src/lib.rs, lines 79–91). -/
def is_prime_scalar (n : Nat) : Bool :=
  if n = 0 ∨ n = 1 then false
  else if n = 2 ∨ n = 3 then true
  else if n % 2 = 0 ∨ n % 3 = 0 then false
  else
    trial_division_loop n (ceil_sqrt n) 5 (ceil_sqrt n)

/-- Embedding of arrow2's `BooleanArray` as the mask operation builds it:
a list of boolean values plus an optional validity bitmap (the `None`
passed as third argument to `BooleanArray::new` means "no nulls"). -/
structure BooleanArray where
  values : List Bool
  validity : Option (List Bool)
deriving Repr, DecidableEq

/-- Embedding of the loop body of `is_prime` (src/src/lib.rs, lines
105–111): for each slot, push `is_prime_scalar value` when present and
`false` when absent. -/
def is_prime_values : List (Option Nat) → List Bool
  | [] => []
  | some n :: rest => is_prime_scalar n :: is_prime_values rest
  | none :: rest => false :: is_prime_values rest

/-- Embedding of the mask operation `is_prime` (src/src/lib.rs, lines
102–115): the bitmap built by the loop, wrapped in a `BooleanArray` with
validity `None`. -/
def is_prime (arr : List (Option Nat)) : BooleanArray :=
  { values := is_prime_values arr, validity := none }

/-- Embedding of `are_all_primes` (src/src/lib.rs, lines 128–135): skip
absent slots, return `false` at the first present non-prime, `true` when
the traversal completes. -/
def are_all_primes : List (Option Nat) → Bool
  | [] => true
  | some n :: rest => if is_prime_scalar n then are_all_primes rest else false
  | none :: rest => are_all_primes rest

/-- Reference definition following the words of the spec's six-step
algorithm (§4.1), written for the refinement claim C3: steps 1–3 are the
small-case and 2/3-divisibility screens, step 4 computes
`limit = ceil(sqrt(n))`, step 5 tests every `i` with `5 ≤ i < limit` and
`i ≡ 5 (mod 6)` (that is, `i` stepping from 5 to `limit` exclusive in
increments of 6) for divisibility by `i` or `i + 2`, and step 6 returns
`true` otherwise. -/
def spec_is_prime (n : Nat) : Bool :=
  if n = 0 ∨ n = 1 then false
  else if n = 2 ∨ n = 3 then true
  else if n % 2 = 0 ∨ n % 3 = 0 then false
  else if ∃ i ∈ List.range (ceil_sqrt n),
            5 ≤ i ∧ (i - 5) % 6 = 0 ∧ (n % i = 0 ∨ n % (i + 2) = 0) then false
  else true

/-- Helper: what it means for the loop to return `true`, for any starting
index and any sufficient amount of fuel — no index `j` of the arithmetic
progression `i, i + 6, i + 12, …` that lies below `limit` divides `n` (nor
does `j + 2`). -/
lemma trial_division_loop_eq_true_iff (n : Nat) :
    ∀ (fuel limit i : Nat), limit ≤ i + 6 * fuel →
      (trial_division_loop n limit i fuel = true ↔
        ∀ j, i ≤ j → j < limit → (j - i) % 6 = 0 →
          ¬(n % j = 0 ∨ n % (j + 2) = 0)) := by
  intro fuel
  induction fuel with
  | zero =>
    intro limit i h
    simp only [trial_division_loop]
    constructor
    · intro _ j hij hjl _
      omega
    · intro _
      trivial
  | succ fuel ih =>
    intro limit i h
    simp only [trial_division_loop]
    by_cases hil : i < limit
    · rw [if_pos hil]
      by_cases hdiv : n % i = 0 ∨ n % (i + 2) = 0
      · rw [if_pos hdiv]
        constructor
        · intro hF
          exact absurd hF (by simp)
        · intro H
          exact absurd hdiv (H i le_rfl hil (by simp))
      · rw [if_neg hdiv]
        rw [ih limit (i + 6) (by omega)]
        constructor
        · intro H j hij hjl hj6
          by_cases hji : j = i
          · subst hji
            exact hdiv
          · exact H j (by omega) hjl (by omega)
        · intro H j hij hjl hj6
          exact H j (by omega) hjl (by omega)
    · rw [if_neg hil]
      constructor
      · intro _ j hij hjl _
        omega
      · intro _
        rfl

/-- Helper: the aggregate returns `true` exactly when every present value
passes the scalar test. -/
lemma are_all_primes_eq_true_iff (l : List (Option Nat)) :
    are_all_primes l = true ↔ ∀ n : Nat, some n ∈ l → is_prime_scalar n = true := by
  induction l with
  | nil => simp [are_all_primes]
  | cons x rest ih =>
    cases x with
    | none =>
      rw [show are_all_primes (none :: rest) = are_all_primes rest from rfl, ih]
      constructor
      · intro H n hn
        rcases List.mem_cons.mp hn with h | h
        · exact absurd h (by simp)
        · exact H n h
      · intro H n hn
        exact H n (List.mem_cons_of_mem _ hn)
    | some m =>
      simp only [are_all_primes]
      by_cases hm : is_prime_scalar m = true
      · rw [if_pos hm, ih]
        constructor
        · intro H n hn
          rcases List.mem_cons.mp hn with h | h
          · obtain rfl : n = m := Option.some.inj h
            exact hm
          · exact H n h
        · intro H n hn
          exact H n (List.mem_cons_of_mem _ hn)
      · rw [if_neg hm]
        constructor
        · intro hF
          exact absurd hF (by simp)
        · intro H
          exact absurd (H m (List.mem_cons_self _ _)) hm

/-- Helper: the per-slot convention applied by the mask loop. -/
def mask_slot : Option Nat → Bool
  | some n => is_prime_scalar n
  | none => false

/-- Helper: the mask loop is the map of the per-slot convention. -/
lemma is_prime_values_eq_map (l : List (Option Nat)) :
    is_prime_values l = l.map mask_slot := by
  induction l with
  | nil => rfl
  | cons x rest ih => cases x <;> simp [is_prime_values, ih, mask_slot]

/-- C1: the spec claims `is_prime_scalar n = true` iff `n` is prime (with 0
and 1 mapped to `false`); the code violates this at `n = 25`: the loop
bound `ceil(sqrt(25)) = 5` is exclusive, the loop body never runs, the
divisor 5 is never tested, and the composite 25 is reported prime. -/
theorem is_prime_scalar_true_on_composite_25 :
    is_prime_scalar 25 = true ∧ ¬ Nat.Prime 25 :=
  ⟨by decide, by norm_num⟩

/-- C2: the spec demands `false` on each of {4, 6, 8, 9, 10, 25, 49, 100};
the code agrees on all of them except the perfect square 25, where it
returns `true`. -/
theorem is_prime_scalar_at_spec_composites :
    is_prime_scalar 4 = false ∧ is_prime_scalar 6 = false ∧
    is_prime_scalar 8 = false ∧ is_prime_scalar 9 = false ∧
    is_prime_scalar 10 = false ∧ is_prime_scalar 25 = true ∧
    is_prime_scalar 49 = false ∧ is_prime_scalar 100 = false := by
  decide

/-- C3: on the whole u64 domain the code function `is_prime_scalar` equals
the spec's six-step reference algorithm `spec_is_prime` (both share the
exclusive loop bound, so they agree even at inputs such as 25 where both
depart from true primality). -/
theorem is_prime_scalar_eq_spec_algorithm (n : Nat) (_h : n < 2 ^ 64) :
    is_prime_scalar n = spec_is_prime n := by
  unfold is_prime_scalar spec_is_prime
  by_cases h01 : n = 0 ∨ n = 1
  · rw [if_pos h01, if_pos h01]
  · rw [if_neg h01, if_neg h01]
    by_cases h23 : n = 2 ∨ n = 3
    · rw [if_pos h23, if_pos h23]
    · rw [if_neg h23, if_neg h23]
      by_cases hdiv : n % 2 = 0 ∨ n % 3 = 0
      · rw [if_pos hdiv, if_pos hdiv]
      · rw [if_neg hdiv, if_neg hdiv]
        have hchar :=
          trial_division_loop_eq_true_iff n (ceil_sqrt n) (ceil_sqrt n) 5 (by omega)
        by_cases hE : ∃ i ∈ List.range (ceil_sqrt n),
            5 ≤ i ∧ (i - 5) % 6 = 0 ∧ (n % i = 0 ∨ n % (i + 2) = 0)
        · rw [if_pos hE, Bool.eq_false_iff]
          intro hT
          rw [hchar] at hT
          obtain ⟨i, hmem, h5, h6, hd⟩ := hE
          exact hT i h5 (List.mem_range.mp hmem) h6 hd
        · rw [if_neg hE, hchar]
          intro j h5 hlt h6 hd
          exact hE ⟨j, List.mem_range.mpr hlt, h5, h6, hd⟩

/-- Witness for C3 at the concrete input 97. -/
theorem is_prime_scalar_eq_spec_algorithm_witness :
    97 < 2 ^ 64 ∧ is_prime_scalar 97 = spec_is_prime 97 :=
  ⟨by decide, is_prime_scalar_eq_spec_algorithm 97 (by decide)⟩

/-- C4: the aggregate `are_all_primes` skips absent slots, returns `false`
exactly when some present value fails the scalar test, and `true` exactly
when no present value fails it — hence `true` on the empty and all-absent
columns, where no present value exists at all. -/
theorem are_all_primes_characterization (l : List (Option Nat)) :
    (are_all_primes l = true ↔ ∀ n : Nat, some n ∈ l → is_prime_scalar n = true) ∧
    (are_all_primes l = false ↔ ∃ n : Nat, some n ∈ l ∧ is_prime_scalar n = false) := by
  refine ⟨are_all_primes_eq_true_iff l, ?_⟩
  rw [← Bool.not_eq_true, are_all_primes_eq_true_iff l]
  push_neg
  simp only [Bool.not_eq_true]

/-- Witness for C4 (its statement carries no hypothesis, but the vacuous
all-absent case deserves a concrete instance): on `[none, none]` the
aggregate is `true`. -/
theorem are_all_primes_characterization_witness :
    are_all_primes [none, none] = true :=
  (are_all_primes_characterization [none, none]).1.mpr (by
    intro n hn
    simp at hn)

/-- C5: the mask output is, slot by slot in input order,
`is_prime_scalar value` at a present slot and `false` at an absent slot;
in particular `[present 4, absent, present 7]` yields
`[false, false, true]`. -/
theorem is_prime_mask_pointwise :
    (∀ (l : List (Option Nat)) (i : Nat),
        ((is_prime l).values)[i]? = Option.map mask_slot l[i]?) ∧
    (is_prime [some 4, none, some 7]).values = [false, false, true] := by
  constructor
  · intro l i
    show (is_prime_values l)[i]? = _
    rw [is_prime_values_eq_map]
    exact List.getElem?_map mask_slot l i
  · decide

/-- C6: the mask output has exactly the length of the input and carries no
validity bitmap (the code passes `None` to `BooleanArray::new`), so every
output slot is a definite boolean. -/
theorem is_prime_mask_length_and_validity (l : List (Option Nat)) :
    ((is_prime l).values).length = l.length ∧ (is_prime l).validity = none := by
  constructor
  · show (is_prime_values l).length = l.length
    rw [is_prime_values_eq_map]
    exact List.length_map l mask_slot
  · rfl

/-- C7: on a column with no absent slot, the aggregate is `true` exactly
when every entry of the mask is `true`. -/
theorem are_all_primes_iff_mask_all (l : List (Option Nat))
    (h : ∀ x ∈ l, x ≠ none) :
    (are_all_primes l = true ↔ ((is_prime l).values).all (fun b => b) = true) := by
  rw [are_all_primes_eq_true_iff]
  show _ ↔ (is_prime_values l).all (fun b => b) = true
  rw [is_prime_values_eq_map, List.all_eq_true]
  constructor
  · intro H x hx
    obtain ⟨s, hs, rfl⟩ := List.mem_map.mp hx
    cases s with
    | none => exact absurd rfl (h none hs)
    | some m => simpa [mask_slot] using H m hs
  · intro H n hn
    have := H (mask_slot (some n)) (List.mem_map_of_mem mask_slot hn)
    simpa [mask_slot] using this

/-- Witness for C7 at the concrete all-present column `[some 2, some 5]`. -/
theorem are_all_primes_iff_mask_all_witness :
    are_all_primes [some 2, some 5] = true ↔
      ((is_prime [some 2, some 5]).values).all (fun b => b) = true :=
  are_all_primes_iff_mask_all [some 2, some 5] (by decide)

/-- C9: the code returns `true` on each of
{2, 3, 5, 7, 11, 13, 17, 19, 23, 97}, as the spec demands. -/
theorem is_prime_scalar_at_spec_primes :
    is_prime_scalar 2 = true ∧ is_prime_scalar 3 = true ∧
    is_prime_scalar 5 = true ∧ is_prime_scalar 7 = true ∧
    is_prime_scalar 11 = true ∧ is_prime_scalar 13 = true ∧
    is_prime_scalar 17 = true ∧ is_prime_scalar 19 = true ∧
    is_prime_scalar 23 = true ∧ is_prime_scalar 97 = true := by
  decide

/-- C10: for any column, absent slots included, the aggregate equals the
conjunction of the mask entries taken at the present slots: it is `true`
exactly when the mask holds `true` at every index whose input slot is
present; absent slots impose no condition. -/
theorem are_all_primes_iff_mask_at_present (l : List (Option Nat)) :
    are_all_primes l = true ↔
      ∀ (i : Nat) (n : Nat), l[i]? = some (some n) →
        ((is_prime l).values)[i]? = some true := by
  have hmask : ∀ (i : Nat), ((is_prime l).values)[i]? = Option.map mask_slot l[i]? := by
    intro i
    show (is_prime_values l)[i]? = _
    rw [is_prime_values_eq_map]
    exact List.getElem?_map mask_slot l i
  rw [are_all_primes_eq_true_iff]
  constructor
  · intro H i n hi
    rw [hmask i, hi]
    have hmem : some n ∈ l := List.mem_iff_getElem?.mpr ⟨i, hi⟩
    simp [mask_slot, H n hmem]
  · intro H n hn
    obtain ⟨i, hi⟩ := List.mem_iff_getElem?.mp hn
    have h2 := H i n hi
    rw [hmask i, hi] at h2
    simpa [mask_slot] using h2

end PandasPrimes
